import Mathlib

/-!
Verification of the directory-tree printer `printer.py`.

The script walks a directory tree (`os.walk`), prunes the subdirectories
named `.next`, `node_modules`, `.git`, `.idea` before descending, prints
each directory line indented by `4 * level` spaces where
`level = root.replace(directory_path, '').count(os.sep)`, and for each
file either prints the bare name, or — when the lowercased extension is a
recognized image extension — probes the image dimensions with PIL and
prints `name (Image, WxH)` on success or
`name (Could not read image dimensions: e)` on failure.

We embed the filesystem as a finite rose tree (`Dir`/`DirList`), the PIL
decoder as an oracle `pil : List Nat → Except String (Nat × Nat)` from
file contents to either dimensions or an error message (PIL is an
external collaborator of the repository, consumed as a black box), and
the printed output as a `List String`. The Python string primitives the
script uses (`str.replace` with empty replacement, `os.path.basename`,
`os.path.join`, `os.path.splitext`, `str.lower`, `str.count(os.sep)`)
are embedded character-faithfully below; `os.sep` is `/` (the hardcoded
root path in the script is a POSIX path). All definitions are by
structural recursion (`replFuel` carries explicit fuel, exact because
each step consumes at least one character) so closed instances evaluate
inside the kernel.
-/

/-- One fuelled pass of Python `s.replace(pat, '')` (empty replacement):
delete every non-overlapping occurrence of `pat`, scanning left to
right.  Each step consumes at least one character of `s`, so fuel
`s.length` makes the recursion exact.  A nonempty `pat` is assumed by
the caller (`pyReplace` returns `s` unchanged on an empty pattern, as
Python does for an empty replacement). -/
def replFuel (pat : List Char) : Nat → List Char → List Char
  | 0, s => s
  | _ + 1, [] => []
  | n + 1, c :: rest =>
    if pat.isPrefixOf (c :: rest) then replFuel pat n ((c :: rest).drop pat.length)
    else c :: replFuel pat n rest

/-- Embeds Python `s.replace(pat, '')`. -/
def pyReplace (s pat : String) : String :=
  if pat.data = [] then s
  else String.mk (replFuel pat.data s.data.length s.data)

/-- Embeds Python `s.count('/')` — `os.sep` is `/` here. -/
def countSep (s : String) : Nat :=
  (s.data.filter (fun c => c = '/')).length

/-- `' ' * n` — a run of `n` spaces. -/
def nspaces (n : Nat) : String :=
  String.mk (List.replicate n ' ')

/-- Embeds `os.path.basename` (posixpath): everything after the last `/`. -/
def pyBasename (p : String) : String :=
  String.mk ((p.data.reverse.takeWhile (fun c => c ≠ '/')).reverse)

/-- Whether the string starts with `/` — `b.startswith('/')` on the
single character that matters here. -/
def headSlash (b : String) : Bool :=
  match b.data with
  | '/' :: _ => true
  | _ => false

/-- Whether the string ends with `/` — `a.endswith('/')`. -/
def lastSlash (a : String) : Bool :=
  match a.data.reverse with
  | '/' :: _ => true
  | _ => false

/-- Embeds `os.path.join(a, b)` (posixpath, one extra component):
if `b` starts with the separator the result is `b`; else if `a` is empty
or ends with the separator the result is `a ++ b`; else `a ++ "/" ++ b`. -/
def posixJoin (a b : String) : String :=
  if headSlash b then b
  else if a.data = [] ∨ lastSlash a then a ++ b
  else a ++ "/" ++ b

/-- The suffix of `cs` starting at its last `'.'`, when `cs` contains a
dot at all. -/
def extAfterLastDot : List Char → Option (List Char)
  | [] => none
  | c :: rest =>
    match extAfterLastDot rest with
    | some e => some e
    | none => if c = '.' then some (c :: rest) else none

/-- Embeds `os.path.splitext(p)[1]` (genericpath `_splitext`): the
extension is the suffix of the basename starting at its last dot,
except that dots leading the basename do not begin an extension
(`splitext(".png") = (".png", "")`). -/
def splitextExt (p : String) : String :=
  let base := (p.data.reverse.takeWhile (fun c => c ≠ '/')).reverse
  match extAfterLastDot (base.dropWhile (fun c => c = '.')) with
  | some e => String.mk e
  | none => ""

/-- Embeds Python `str.lower` on the ASCII strings that occur here. -/
def pyLower (s : String) : String :=
  String.mk (s.data.map Char.toLower)

example : pyReplace "/a/a" "/a" = "" := by decide
example : pyReplace "/r/sub" "/r" = "/sub" := by decide
example : countSep "/a/b" = 2 := by decide
example : pyBasename "/a/b" = "b" := by decide
example : pyBasename "/a/b/" = "" := by decide
example : posixJoin "/a" "b" = "/a/b" := by decide
example : posixJoin "/a/" "b" = "/a/b" := by decide
example : splitextExt ".png" = "" := by decide
example : splitextExt "a.PNG" = ".PNG" := by decide
example : splitextExt "..png" = "" := by decide
example : splitextExt ".a.png" = ".png" := by decide
example : pyLower "A.Png" = "a.png" := by decide

/-! ## The filesystem model

A directory is a name, a finite list of files (name and content, the
content a byte list fed to the PIL oracle), and a finite list of
subdirectories, in the order `os.walk` enumerates them (directory-entry
order is part of the modelled filesystem state). -/

mutual
inductive Dir : Type where
  | mk (name : String) (files : List (String × List Nat)) (subdirs : DirList)
deriving DecidableEq
inductive DirList : Type where
  | nil : DirList
  | cons (d : Dir) (rest : DirList) : DirList
deriving DecidableEq
end

def Dir.name : Dir → String
  | .mk n _ _ => n

/-- The PIL oracle: maps a file's content to its pixel `(width, height)`
or to the decoder's error message. -/
abbrev PilOracle := List Nat → Except String (Nat × Nat)

/-- `image_extensions` of `printer.py` line 9. -/
def image_extensions : List String :=
  [".jpg", ".jpeg", ".png", ".gif", ".bmp", ".tiff", ".webp"]

/-- The exclusion set of `printer.py` line 13. -/
def excluded_dirs : List String :=
  [".next", "node_modules", ".git", ".idea"]

/-- `dirs[:] = [d for d in dirs if d not in {...}]` (line 13): prune the
subdirectories whose name is in the exclusion set before descending. -/
def filterExcluded : DirList → DirList
  | .nil => .nil
  | .cons d rest =>
    if d.name ∈ excluded_dirs then filterExcluded rest
    else .cons d (filterExcluded rest)

/-- Names of the entries of a `DirList`. -/
def dirNamesOf : DirList → List String
  | .nil => []
  | .cons d rest => d.name :: dirNamesOf rest

/-- The per-file body of the loop at lines 20–31: compute the lowercased
extension; for an image extension call the decoder and print either the
dimension line or the diagnostic line; otherwise print the bare name. -/
def printFileLine (pil : PilOracle) (sub_indent f : String) (content : List Nat) : String :=
  let file_ext := pyLower (splitextExt f)
  if file_ext ∈ image_extensions then
    match pil content with
    | .ok wh => sub_indent ++ f ++ " (Image, " ++ toString wh.1 ++ "x" ++ toString wh.2 ++ ")"
    | .error e => sub_indent ++ f ++ " (Could not read image dimensions: " ++ e ++ ")"
  else
    sub_indent ++ f

mutual
/-- The `os.walk` loop of lines 11–31, fused with the in-place pruning of
`dirs` (which controls descent): at directory `root`, prune, compute
`level = root.replace(directory_path, '').count(os.sep)`, print the
directory line `indent + basename(root) + "/"`, print each file line at
`sub_indent`, then recurse into the pruned subdirectories, each at
`os.path.join(root, name)`. -/
def walkPrint (pil : PilOracle) (directory_path root : String) : Dir → List String
  | .mk _ files subdirs =>
    let level := countSep (pyReplace root directory_path)
    let indent := nspaces (4 * level)
    let sub_indent := nspaces (4 * (level + 1))
    (indent ++ pyBasename root ++ "/") ::
      (files.map (fun fc => printFileLine pil sub_indent fc.1 fc.2) ++
        walkPrintDirs pil directory_path root subdirs)
/-- Descent into the subdirectories, with line 13's pruning applied: a
subdirectory whose name is in the exclusion set is never visited and
contributes nothing to the output (the in-place filter and the descent
are fused here; `walkPrintDirs l = walkPrintDirs (filterExcluded l)` by
`walkPrintDirs_filterExcluded` below). -/
def walkPrintDirs (pil : PilOracle) (directory_path root : String) : DirList → List String
  | .nil => []
  | .cons d rest =>
    if d.name ∈ excluded_dirs then walkPrintDirs pil directory_path root rest
    else
      walkPrint pil directory_path (posixJoin root d.name) d ++
        walkPrintDirs pil directory_path root rest
end

/-- `list_files_and_image_dimensions(directory_path)` (lines 4–31): the
full printed output, as the list of printed lines, for the tree `d`
mounted at `directory_path`. -/
def list_files_and_image_dimensions (pil : PilOracle) (directory_path : String) (d : Dir) : List String :=
  walkPrint pil directory_path directory_path d

/-- The hardcoded root path of line 34. -/
def folder_path : String := "/Users/saleh/WebstormProjects/medbrevia-chat-v2"

/-- The `__main__` block (lines 33–39): the filesystem either has a
directory at `folder_path` (`some d`) or does not (`none`, the case
where `os.path.isdir` is false). -/
def pyMain (pil : PilOracle) (fs : Option Dir) : List String :=
  match fs with
  | some d => list_files_and_image_dimensions pil folder_path d
  | none => ["Error: The provided path is not a valid directory."]

def pilNone : PilOracle := fun _ => .error "cannot identify image file"

theorem walkPrintDirs_filterExcluded (pil : PilOracle) (dp root : String) :
    ∀ l : DirList, walkPrintDirs pil dp root (filterExcluded l) = walkPrintDirs pil dp root l
  | .nil => rfl
  | .cons d rest => by
    by_cases h : d.name ∈ excluded_dirs <;>
      simp [filterExcluded, walkPrintDirs, h, walkPrintDirs_filterExcluded pil dp root rest]

/-! ## The structured view of the traversal

`walkEntities` lists the entities the walk visits — each visited
directory and each file of a visited directory — identified by their
path relative to the root (a list of names).  `renderFrom` maps an
entity to the line the printer prints for it; `walkPrint_eq` states the
printed output is exactly the rendering of the visited entities, one
line per entity, in traversal order. -/

inductive Entity : Type where
  | dirE (rel : List String)
  | fileE (dirRel : List String) (fname : String) (content : List Nat)
deriving DecidableEq

/-- Reinterpret an entity relative to the parent of a directory named `n`. -/
def Entity.addRoot (n : String) : Entity → Entity
  | .dirE rel => .dirE (n :: rel)
  | .fileE dr f c => .fileE (n :: dr) f c

mutual
def walkEntities : Dir → List Entity
  | .mk _ files subdirs =>
    .dirE [] ::
      (files.map (fun fc => .fileE [] fc.1 fc.2) ++ walkEntitiesDirs subdirs)
def walkEntitiesDirs : DirList → List Entity
  | .nil => []
  | .cons d rest =>
    if d.name ∈ excluded_dirs then walkEntitiesDirs rest
    else (walkEntities d).map (Entity.addRoot d.name) ++ walkEntitiesDirs rest
end

/-- The absolute path of a relative path mounted at `base`, built with
`os.path.join` one component at a time, as `os.walk` builds its `root`
argument. -/
def absOf (base : String) (rel : List String) : String :=
  rel.foldl posixJoin base

/-- The line printed for an entity whose relative path is mounted at
`root`, with depth computed against `directory_path` exactly as the
script computes it. -/
def renderFrom (pil : PilOracle) (directory_path root : String) : Entity → String
  | .dirE rel =>
    nspaces (4 * countSep (pyReplace (absOf root rel) directory_path)) ++
      pyBasename (absOf root rel) ++ "/"
  | .fileE dr f c =>
    printFileLine pil
      (nspaces (4 * (countSep (pyReplace (absOf root dr) directory_path) + 1))) f c

/-- The line printed for an entity of the tree mounted at the root. -/
def render (pil : PilOracle) (directory_path : String) : Entity → String :=
  renderFrom pil directory_path directory_path

theorem renderFrom_addRoot (pil : PilOracle) (dp root n : String) (e : Entity) :
    renderFrom pil dp root (Entity.addRoot n e) = renderFrom pil dp (posixJoin root n) e := by
  cases e <;> rfl

mutual
theorem walkPrint_eq (pil : PilOracle) (dp : String) :
    ∀ (root : String) (d : Dir),
      walkPrint pil dp root d = (walkEntities d).map (renderFrom pil dp root)
  | root, .mk n files subdirs => by
    rw [walkPrint, walkEntities]
    simp only [List.map_cons, List.map_append, List.map_map]
    rw [walkPrintDirs_eq pil dp root subdirs]
    rfl
theorem walkPrintDirs_eq (pil : PilOracle) (dp : String) :
    ∀ (root : String) (l : DirList),
      walkPrintDirs pil dp root l = (walkEntitiesDirs l).map (renderFrom pil dp root)
  | root, .nil => rfl
  | root, .cons d rest => by
    rw [walkPrintDirs, walkEntitiesDirs]
    by_cases h : d.name ∈ excluded_dirs
    · simp only [h, if_true]
      exact walkPrintDirs_eq pil dp root rest
    · simp only [h, if_false, List.map_append, List.map_map]
      rw [walkPrint_eq pil dp (posixJoin root d.name) d,
        walkPrintDirs_eq pil dp root rest]
      congr 1
      apply List.map_congr_left
      intro e _
      exact (renderFrom_addRoot pil dp root d.name e).symm
end

theorem list_files_eq_render (pil : PilOracle) (dp : String) (d : Dir) :
    list_files_and_image_dimensions pil dp d = (walkEntities d).map (render pil dp) :=
  walkPrint_eq pil dp dp d

/-! ## Occurrence counting

`isDirPath d p` / `hasFileAt d p f` say the tree really has a directory
at relative path `p` / a file `f` in the directory at `p`; `noExcl p`
says no component of `p` is an excluded name.  The counting theorems
say each such live entity is visited exactly once and nothing else is
visited, given the filesystem well-formedness invariant `wfDir`
(sibling names are distinct — true of every real directory tree). -/

def Entity.isDirAt (p : List String) : Entity → Bool
  | .dirE q => q == p
  | .fileE _ _ _ => false

def Entity.isFileAt (p : List String) (f : String) : Entity → Bool
  | .fileE q g _ => q == p && g == f
  | .dirE _ => false

mutual
def isDirPath : Dir → List String → Bool
  | _, [] => true
  | .mk _ _ subdirs, n :: rest => isDirPathDirs subdirs n rest
def isDirPathDirs : DirList → String → List String → Bool
  | .nil, _, _ => false
  | .cons d l, n, rest => (d.name == n && isDirPath d rest) || isDirPathDirs l n rest
end

mutual
def hasFileAt : Dir → List String → String → Bool
  | .mk _ files _, [], f => files.any (fun fc => fc.1 == f)
  | .mk _ _ subdirs, n :: rest, f => hasFileAtDirs subdirs n rest f
def hasFileAtDirs : DirList → String → List String → String → Bool
  | .nil, _, _, _ => false
  | .cons d l, n, rest, f => (d.name == n && hasFileAt d rest f) || hasFileAtDirs l n rest f
end

/-- No component of the relative path is an excluded directory name. -/
def noExcl (p : List String) : Bool :=
  p.all (fun c => !(decide (c ∈ excluded_dirs)))

def distinctOk : List String → Bool
  | [] => true
  | x :: xs => (!(decide (x ∈ xs))) && distinctOk xs

mutual
/-- Filesystem well-formedness: in every directory the file names are
pairwise distinct and the subdirectory names are pairwise distinct. -/
def wfDir : Dir → Bool
  | .mk _ files subdirs =>
    distinctOk (files.map Prod.fst) && distinctOk (dirNamesOf subdirs) && wfDirList subdirs
def wfDirList : DirList → Bool
  | .nil => true
  | .cons d rest => wfDir d && wfDirList rest
end

theorem isDirPathDirs_of_not_name :
    ∀ (l : DirList) (n : String) (rest : List String), n ∉ dirNamesOf l →
      isDirPathDirs l n rest = false
  | .nil, _, _, _ => rfl
  | .cons d l, n, rest, h => by
    have hd : ¬ d.name = n := by
      intro he; exact h (by simp [dirNamesOf, he])
    have hl : n ∉ dirNamesOf l := fun hm => h (by simp [dirNamesOf, hm])
    simp [isDirPathDirs, isDirPathDirs_of_not_name l n rest hl, hd]

theorem hasFileAtDirs_of_not_name :
    ∀ (l : DirList) (n : String) (rest : List String) (f : String), n ∉ dirNamesOf l →
      hasFileAtDirs l n rest f = false
  | .nil, _, _, _, _ => rfl
  | .cons d l, n, rest, f, h => by
    have hd : ¬ d.name = n := by
      intro he; exact h (by simp [dirNamesOf, he])
    have hl : n ∉ dirNamesOf l := fun hm => h (by simp [dirNamesOf, hm])
    simp [hasFileAtDirs, hasFileAtDirs_of_not_name l n rest f hl, hd]

theorem countP_isDirAt_addRoot (m n : String) (rest : List String) (es : List Entity) :
    List.countP (fun e => Entity.isDirAt (n :: rest) (Entity.addRoot m e)) es =
      if m = n then List.countP (Entity.isDirAt rest) es else 0 := by
  by_cases h : m = n
  · subst h
    simp only [if_pos rfl]
    apply List.countP_congr
    intro e _
    cases e <;> simp [Entity.addRoot, Entity.isDirAt]
  · simp only [if_neg h]
    apply List.countP_eq_zero.mpr
    intro e _
    cases e <;> simp [Entity.addRoot, Entity.isDirAt, h]

theorem countP_isFileAt_addRoot (m n : String) (rest : List String) (f : String)
    (es : List Entity) :
    List.countP (fun e => Entity.isFileAt (n :: rest) f (Entity.addRoot m e)) es =
      if m = n then List.countP (Entity.isFileAt rest f) es else 0 := by
  by_cases h : m = n
  · subst h
    simp only [if_pos rfl]
    apply List.countP_congr
    intro e _
    cases e <;> simp [Entity.addRoot, Entity.isFileAt]
  · simp only [if_neg h]
    apply List.countP_eq_zero.mpr
    intro e _
    cases e <;> simp [Entity.addRoot, Entity.isFileAt, h]

theorem countP_isDirAt_nil_walkDirs :
    ∀ l : DirList, List.countP (Entity.isDirAt []) (walkEntitiesDirs l) = 0
  | .nil => rfl
  | .cons d l => by
    rw [walkEntitiesDirs]
    by_cases h : d.name ∈ excluded_dirs
    · simp only [h, if_true]
      exact countP_isDirAt_nil_walkDirs l
    · simp only [h, if_false, List.countP_append, List.countP_map,
        countP_isDirAt_nil_walkDirs l]
      have : List.countP (Entity.isDirAt [] ∘ Entity.addRoot d.name) (walkEntities d) = 0 := by
        apply List.countP_eq_zero.mpr
        intro e _
        cases e <;> simp [Entity.addRoot, Entity.isDirAt, Function.comp]
      rw [this]

theorem countP_files_distinct (f : String) :
    ∀ files : List (String × List Nat), distinctOk (files.map Prod.fst) = true →
      List.countP (fun fc => fc.1 == f) files =
        if files.any (fun fc => fc.1 == f) then 1 else 0
  | [], _ => rfl
  | fc :: fs, h => by
    obtain ⟨h1, h2⟩ : fc.1 ∉ fs.map Prod.fst ∧ distinctOk (fs.map Prod.fst) = true := by
      simpa [distinctOk, Bool.and_eq_true] using h
    rw [List.countP_cons, countP_files_distinct f fs h2, List.any_cons]
    by_cases hf : fc.1 = f
    · subst hf
      have hz : fs.any (fun x => x.1 == fc.1) = false := by
        rw [List.any_eq_false]
        intro x hx
        simp only [beq_iff_eq]
        intro he
        exact h1 (by simpa [he] using List.mem_map_of_mem Prod.fst hx)
      simp [hz]
    · have hb : (fc.1 == f) = false := by simpa using hf
      rw [hb, Bool.false_or]
      simp

theorem countP_isFileAt_nil_walkDirs :
    ∀ (l : DirList) (f : String),
      List.countP (Entity.isFileAt [] f) (walkEntitiesDirs l) = 0
  | .nil, _ => rfl
  | .cons d l, f => by
    rw [walkEntitiesDirs]
    by_cases h : d.name ∈ excluded_dirs
    · simp only [h, if_true]
      exact countP_isFileAt_nil_walkDirs l f
    · simp only [h, if_false, List.countP_append, List.countP_map,
        countP_isFileAt_nil_walkDirs l f]
      have : List.countP (Entity.isFileAt [] f ∘ Entity.addRoot d.name) (walkEntities d) = 0 := by
        apply List.countP_eq_zero.mpr
        intro e _
        cases e <;> simp [Entity.addRoot, Entity.isFileAt, Function.comp]
      rw [this]

example :
    list_files_and_image_dimensions pilNone "/r"
      (.mk "r" [("a.txt", []), ("b.png", [1])]
        (.cons (.mk "node_modules" [("x.js", [])] .nil)
          (.cons (.mk "sub" [("c.JPG", [2])] .nil) .nil))) =
    ["r/", "    a.txt", "    b.png (Could not read image dimensions: cannot identify image file)",
     "    sub/", "        c.JPG (Could not read image dimensions: cannot identify image file)"] := by
  decide

mutual
theorem countDir_walk :
    ∀ (d : Dir), wfDir d = true → ∀ (p : List String),
      List.countP (Entity.isDirAt p) (walkEntities d) =
        if isDirPath d p && noExcl p then 1 else 0
  | .mk nm files subdirs, hwf, p => by
    obtain ⟨hf, hd, hl⟩ :
        distinctOk (files.map Prod.fst) = true ∧
          distinctOk (dirNamesOf subdirs) = true ∧ wfDirList subdirs = true := by
      simpa [wfDir, Bool.and_eq_true, and_assoc] using hwf
    rw [walkEntities]
    cases p with
    | nil =>
      rw [List.countP_cons, List.countP_append, List.countP_map,
        countP_isDirAt_nil_walkDirs subdirs]
      have hfiles :
          List.countP (Entity.isDirAt [] ∘ fun fc => Entity.fileE [] fc.1 fc.2) files = 0 := by
        apply List.countP_eq_zero.mpr
        intro fc _
        simp [Entity.isDirAt, Function.comp]
      rw [hfiles]
      simp [Entity.isDirAt, isDirPath, noExcl]
    | cons n rest =>
      rw [List.countP_cons, List.countP_append, List.countP_map,
        countDir_dirs subdirs hd hl n rest]
      have hfiles :
          List.countP (Entity.isDirAt (n :: rest) ∘ fun fc => Entity.fileE [] fc.1 fc.2)
            files = 0 := by
        apply List.countP_eq_zero.mpr
        intro fc _
        simp [Entity.isDirAt, Function.comp]
      have hhead : Entity.isDirAt (n :: rest) (Entity.dirE []) = false := by
        simp [Entity.isDirAt]
      rw [hfiles, hhead]
      simp [isDirPath, noExcl, Bool.and_assoc]
theorem countDir_dirs :
    ∀ (l : DirList), distinctOk (dirNamesOf l) = true → wfDirList l = true →
      ∀ (n : String) (rest : List String),
        List.countP (Entity.isDirAt (n :: rest)) (walkEntitiesDirs l) =
          if isDirPathDirs l n rest && !(decide (n ∈ excluded_dirs)) && noExcl rest
          then 1 else 0
  | .nil, _, _, n, rest => by simp [walkEntitiesDirs, isDirPathDirs]
  | .cons d l, hdist, hwfl, n, rest => by
    obtain ⟨hd1, hd2⟩ : d.name ∉ dirNamesOf l ∧ distinctOk (dirNamesOf l) = true := by
      simpa [dirNamesOf, distinctOk, Bool.and_eq_true] using hdist
    obtain ⟨hw1, hw2⟩ : wfDir d = true ∧ wfDirList l = true := by
      simpa [wfDirList, Bool.and_eq_true] using hwfl
    rw [walkEntitiesDirs, isDirPathDirs]
    by_cases hex : d.name ∈ excluded_dirs
    · rw [if_pos hex, countDir_dirs l hd2 hw2 n rest]
      by_cases hn : d.name = n
      · subst hn
        simp [hex]
      · have hb : (d.name == n) = false := by simpa using hn
        rw [hb, Bool.false_and, Bool.false_or]
    · rw [if_neg hex, List.countP_append, List.countP_map,
        countDir_dirs l hd2 hw2 n rest]
      have hcomp :
          List.countP (Entity.isDirAt (n :: rest) ∘ Entity.addRoot d.name)
              (walkEntities d) =
            if d.name = n then List.countP (Entity.isDirAt rest) (walkEntities d) else 0 := by
        rw [← countP_isDirAt_addRoot d.name n rest (walkEntities d)]
        rfl
      rw [hcomp]
      by_cases hn : d.name = n
      · subst hn
        rw [if_pos rfl, countDir_walk d hw1 rest,
          isDirPathDirs_of_not_name l d.name rest hd1]
        simp [hex]
      · have hb : (d.name == n) = false := by simpa using hn
        rw [if_neg hn, hb, Bool.false_and, Bool.false_or, Nat.zero_add]
end

mutual
theorem countFile_walk :
    ∀ (d : Dir), wfDir d = true → ∀ (p : List String) (f : String),
      List.countP (Entity.isFileAt p f) (walkEntities d) =
        if hasFileAt d p f && noExcl p then 1 else 0
  | .mk nm files subdirs, hwf, p, f => by
    obtain ⟨hf, hd, hl⟩ :
        distinctOk (files.map Prod.fst) = true ∧
          distinctOk (dirNamesOf subdirs) = true ∧ wfDirList subdirs = true := by
      simpa [wfDir, Bool.and_eq_true, and_assoc] using hwf
    rw [walkEntities]
    cases p with
    | nil =>
      rw [List.countP_cons, List.countP_append, List.countP_map,
        countP_isFileAt_nil_walkDirs subdirs f]
      have hfiles :
          List.countP (Entity.isFileAt [] f ∘ fun fc => Entity.fileE [] fc.1 fc.2) files =
            List.countP (fun fc => fc.1 == f) files := by
        apply List.countP_congr
        intro fc _
        simp [Entity.isFileAt, Function.comp]
      rw [hfiles, countP_files_distinct f files hf]
      simp only [Entity.isFileAt, hasFileAt, noExcl, List.all_nil, Bool.and_true]
      simp
    | cons n rest =>
      rw [List.countP_cons, List.countP_append, List.countP_map,
        countFile_dirs subdirs hd hl n rest f]
      have hfiles :
          List.countP (Entity.isFileAt (n :: rest) f ∘ fun fc => Entity.fileE [] fc.1 fc.2)
            files = 0 := by
        apply List.countP_eq_zero.mpr
        intro fc _
        simp [Entity.isFileAt, Function.comp]
      have hhead : Entity.isFileAt (n :: rest) f (Entity.dirE []) = false := by
        simp [Entity.isFileAt]
      rw [hfiles, hhead]
      simp [hasFileAt, noExcl, Bool.and_assoc]
theorem countFile_dirs :
    ∀ (l : DirList), distinctOk (dirNamesOf l) = true → wfDirList l = true →
      ∀ (n : String) (rest : List String) (f : String),
        List.countP (Entity.isFileAt (n :: rest) f) (walkEntitiesDirs l) =
          if hasFileAtDirs l n rest f && !(decide (n ∈ excluded_dirs)) && noExcl rest
          then 1 else 0
  | .nil, _, _, n, rest, f => by simp [walkEntitiesDirs, hasFileAtDirs]
  | .cons d l, hdist, hwfl, n, rest, f => by
    obtain ⟨hd1, hd2⟩ : d.name ∉ dirNamesOf l ∧ distinctOk (dirNamesOf l) = true := by
      simpa [dirNamesOf, distinctOk, Bool.and_eq_true] using hdist
    obtain ⟨hw1, hw2⟩ : wfDir d = true ∧ wfDirList l = true := by
      simpa [wfDirList, Bool.and_eq_true] using hwfl
    rw [walkEntitiesDirs, hasFileAtDirs]
    by_cases hex : d.name ∈ excluded_dirs
    · rw [if_pos hex, countFile_dirs l hd2 hw2 n rest f]
      by_cases hn : d.name = n
      · subst hn
        simp [hex]
      · have hb : (d.name == n) = false := by simpa using hn
        rw [hb, Bool.false_and, Bool.false_or]
    · rw [if_neg hex, List.countP_append, List.countP_map,
        countFile_dirs l hd2 hw2 n rest f]
      have hcomp :
          List.countP (Entity.isFileAt (n :: rest) f ∘ Entity.addRoot d.name)
              (walkEntities d) =
            if d.name = n then List.countP (Entity.isFileAt rest f) (walkEntities d)
            else 0 := by
        rw [← countP_isFileAt_addRoot d.name n rest f (walkEntities d)]
        rfl
      rw [hcomp]
      by_cases hn : d.name = n
      · subst hn
        rw [if_pos rfl, countFile_walk d hw1 rest f,
          hasFileAtDirs_of_not_name l d.name rest f hd1]
        simp [hex]
      · have hb : (d.name == n) = false := by simpa using hn
        rw [if_neg hn, hb, Bool.false_and, Bool.false_or, Nat.zero_add]
end

/-! ## The effect trace

`walkTrace` is the traversal again, now recording every externally
visible effect in order: lines written to standard output, file-handle
acquisitions (`fsOpen path mode` — PIL's `Image.open` opens the file
with `builtins.open(path, "rb")`) and releases (`fsClose`).  The
constructor `fsWrite` is what a filesystem mutation would look like;
the theorems show the trace never contains one.  On a successful probe
the print happens inside the `with` block, so the order is open, print,
close; on a failed probe PIL (and the `with` statement) release the
handle before the `except` branch prints, so the order is open, close,
print. -/

inductive Effect : Type where
  | printLine (s : String)
  | fsOpen (path : String) (mode : String)
  | fsClose (path : String)
  | fsWrite (path : String)
deriving DecidableEq

def Effect.isHandle : Effect → Bool
  | .fsOpen _ _ => true
  | .fsClose _ => true
  | _ => false

/-- The lines printed, in order, as recorded in a trace. -/
def printsOf (tr : List Effect) : List String :=
  tr.filterMap (fun e =>
    match e with
    | .printLine s => some s
    | _ => none)

/-- The file-handle events of a trace, in order. -/
def handlesOf (tr : List Effect) : List Effect :=
  tr.filter Effect.isHandle

/-- The effects of the per-file body (lines 20–31) for one file. -/
def processFileTrace (pil : PilOracle) (image_path sub_indent f : String)
    (content : List Nat) : List Effect :=
  let file_ext := pyLower (splitextExt f)
  if file_ext ∈ image_extensions then
    match pil content with
    | .ok wh =>
        [.fsOpen image_path "rb",
         .printLine (sub_indent ++ f ++ " (Image, " ++ toString wh.1 ++ "x" ++ toString wh.2 ++ ")"),
         .fsClose image_path]
    | .error e =>
        [.fsOpen image_path "rb", .fsClose image_path,
         .printLine (sub_indent ++ f ++ " (Could not read image dimensions: " ++ e ++ ")")]
  else
    [.printLine (sub_indent ++ f)]

mutual
def walkTrace (pil : PilOracle) (directory_path root : String) : Dir → List Effect
  | .mk _ files subdirs =>
    let level := countSep (pyReplace root directory_path)
    let indent := nspaces (4 * level)
    let sub_indent := nspaces (4 * (level + 1))
    .printLine (indent ++ pyBasename root ++ "/") ::
      (files.flatMap (fun fc =>
        processFileTrace pil (posixJoin root fc.1) sub_indent fc.1 fc.2) ++
        walkTraceDirs pil directory_path root subdirs)
def walkTraceDirs (pil : PilOracle) (directory_path root : String) : DirList → List Effect
  | .nil => []
  | .cons d rest =>
    if d.name ∈ excluded_dirs then walkTraceDirs pil directory_path root rest
    else
      walkTrace pil directory_path (posixJoin root d.name) d ++
        walkTraceDirs pil directory_path root rest
end

/-- Whether a file name has a recognized image extension, i.e. whether
the traversal probes it. -/
def isImageName (f : String) : Bool :=
  decide (pyLower (splitextExt f) ∈ image_extensions)

mutual
/-- The absolute paths of the files the traversal probes, in order. -/
def probedFiles (root : String) : Dir → List String
  | .mk _ files subdirs =>
    files.flatMap (fun fc => if isImageName fc.1 then [posixJoin root fc.1] else []) ++
      probedFilesDirs root subdirs
def probedFilesDirs (root : String) : DirList → List String
  | .nil => []
  | .cons d rest =>
    if d.name ∈ excluded_dirs then probedFilesDirs root rest
    else probedFiles (posixJoin root d.name) d ++ probedFilesDirs root rest
end

theorem printsOf_processFileTrace (pil : PilOracle) (ip si f : String) (c : List Nat) :
    printsOf (processFileTrace pil ip si f c) = [printFileLine pil si f c] := by
  rw [processFileTrace, printFileLine]
  by_cases h : pyLower (splitextExt f) ∈ image_extensions
  · rw [if_pos h, if_pos h]
    cases pil c with
    | ok wh => rfl
    | error e => rfl
  · rw [if_neg h, if_neg h]
    rfl

theorem handlesOf_processFileTrace (pil : PilOracle) (ip si f : String) (c : List Nat) :
    handlesOf (processFileTrace pil ip si f c) =
      if isImageName f then [.fsOpen ip "rb", .fsClose ip] else [] := by
  rw [processFileTrace, isImageName]
  by_cases h : pyLower (splitextExt f) ∈ image_extensions
  · rw [if_pos h]
    cases pil c with
    | ok wh => simp [handlesOf, Effect.isHandle, h]
    | error e => simp [handlesOf, Effect.isHandle, h]
  · rw [if_neg h]
    simp [handlesOf, Effect.isHandle, h]

theorem fsWrite_not_mem_processFileTrace (pil : PilOracle) (ip si f : String)
    (c : List Nat) (p : String) : Effect.fsWrite p ∉ processFileTrace pil ip si f c := by
  rw [processFileTrace]
  by_cases h : pyLower (splitextExt f) ∈ image_extensions
  · rw [if_pos h]
    cases pil c with
    | ok wh => simp
    | error e => simp
  · rw [if_neg h]
    simp

theorem printsOf_append (a b : List Effect) :
    printsOf (a ++ b) = printsOf a ++ printsOf b :=
  List.filterMap_append a b _

theorem handlesOf_append (a b : List Effect) :
    handlesOf (a ++ b) = handlesOf a ++ handlesOf b :=
  List.filter_append a b

theorem printsOf_flatMap (f : String × List Nat → List Effect) :
    ∀ l : List (String × List Nat),
      printsOf (l.flatMap f) = l.flatMap (fun a => printsOf (f a))
  | [] => rfl
  | a :: l => by
    rw [List.flatMap_cons, List.flatMap_cons, printsOf_append, printsOf_flatMap f l]

theorem handlesOf_flatMap (f : String × List Nat → List Effect) :
    ∀ l : List (String × List Nat),
      handlesOf (l.flatMap f) = l.flatMap (fun a => handlesOf (f a))
  | [] => rfl
  | a :: l => by
    rw [List.flatMap_cons, List.flatMap_cons, handlesOf_append, handlesOf_flatMap f l]

theorem flatMap_one {α β : Type} (f : α → β) :
    ∀ l : List α, (l.flatMap fun a => [f a]) = l.map f
  | [] => rfl
  | a :: l => by rw [List.flatMap_cons, List.map_cons, flatMap_one f l]; rfl

theorem printsOf_cons_print (s : String) (tr : List Effect) :
    printsOf (.printLine s :: tr) = s :: printsOf tr := rfl

theorem handlesOf_cons_print (s : String) (tr : List Effect) :
    handlesOf (.printLine s :: tr) = handlesOf tr := rfl

mutual
theorem printsOf_walkTrace (pil : PilOracle) (dp : String) :
    ∀ (root : String) (d : Dir),
      printsOf (walkTrace pil dp root d) = walkPrint pil dp root d
  | root, .mk n files subdirs => by
    rw [walkTrace, walkPrint, printsOf_cons_print, printsOf_append,
      printsOf_flatMap, printsOfDirs_walkTrace pil dp root subdirs]
    congr 1
    congr 1
    have : (fun fc : String × List Nat =>
        printsOf (processFileTrace pil (posixJoin root fc.1)
          (nspaces (4 * (countSep (pyReplace root dp) + 1))) fc.1 fc.2)) =
        fun fc : String × List Nat =>
          [printFileLine pil (nspaces (4 * (countSep (pyReplace root dp) + 1))) fc.1 fc.2] := by
      funext fc
      exact printsOf_processFileTrace pil (posixJoin root fc.1) _ fc.1 fc.2
    rw [this, flatMap_one]
theorem printsOfDirs_walkTrace (pil : PilOracle) (dp : String) :
    ∀ (root : String) (l : DirList),
      printsOf (walkTraceDirs pil dp root l) = walkPrintDirs pil dp root l
  | root, .nil => rfl
  | root, .cons d rest => by
    rw [walkTraceDirs, walkPrintDirs]
    by_cases h : d.name ∈ excluded_dirs
    · rw [if_pos h, if_pos h]
      exact printsOfDirs_walkTrace pil dp root rest
    · rw [if_neg h, if_neg h, printsOf_append,
        printsOf_walkTrace pil dp (posixJoin root d.name) d,
        printsOfDirs_walkTrace pil dp root rest]
end

/-- Open-then-immediately-close, read-only, for one probed path. -/
def openClosePair (p : String) : List Effect :=
  [.fsOpen p "rb", .fsClose p]

theorem handles_if_image (ip : String) (b : Bool) :
    ((if b then [ip] else []).flatMap openClosePair) =
      if b then [Effect.fsOpen ip "rb", Effect.fsClose ip] else [] := by
  cases b <;> rfl

mutual
theorem handlesOf_walkTrace (pil : PilOracle) (dp : String) :
    ∀ (root : String) (d : Dir),
      handlesOf (walkTrace pil dp root d) = (probedFiles root d).flatMap openClosePair
  | root, .mk n files subdirs => by
    rw [walkTrace, probedFiles, handlesOf_cons_print, handlesOf_append,
      handlesOf_flatMap, List.flatMap_append,
      handlesOfDirs_walkTrace pil dp root subdirs, List.flatMap_assoc]
    congr 1
    have hfun : (fun fc : String × List Nat =>
        handlesOf (processFileTrace pil (posixJoin root fc.1)
          (nspaces (4 * (countSep (pyReplace root dp) + 1))) fc.1 fc.2)) =
        fun fc : String × List Nat =>
          (if isImageName fc.1 then [posixJoin root fc.1] else []).flatMap openClosePair := by
      funext fc
      rw [handlesOf_processFileTrace, handles_if_image]
    rw [hfun]
theorem handlesOfDirs_walkTrace (pil : PilOracle) (dp : String) :
    ∀ (root : String) (l : DirList),
      handlesOf (walkTraceDirs pil dp root l) = (probedFilesDirs root l).flatMap openClosePair
  | root, .nil => rfl
  | root, .cons d rest => by
    rw [walkTraceDirs, probedFilesDirs]
    by_cases h : d.name ∈ excluded_dirs
    · rw [if_pos h, if_pos h]
      exact handlesOfDirs_walkTrace pil dp root rest
    · rw [if_neg h, if_neg h, handlesOf_append, List.flatMap_append,
        handlesOf_walkTrace pil dp (posixJoin root d.name) d,
        handlesOfDirs_walkTrace pil dp root rest]
end

mutual
theorem fsWrite_not_mem_walkTrace (pil : PilOracle) (dp : String) :
    ∀ (root : String) (d : Dir) (p : String),
      Effect.fsWrite p ∉ walkTrace pil dp root d
  | root, .mk n files subdirs, p => by
    rw [walkTrace]
    intro hmem
    rcases List.mem_cons.mp hmem with h | h
    · exact Effect.noConfusion h
    rcases List.mem_append.mp h with h | h
    · rcases List.mem_flatMap.mp h with ⟨fc, _, hfc⟩
      exact fsWrite_not_mem_processFileTrace pil (posixJoin root fc.1) _ fc.1 fc.2 p hfc
    · exact fsWrite_not_mem_walkTraceDirs pil dp root subdirs p h
theorem fsWrite_not_mem_walkTraceDirs (pil : PilOracle) (dp : String) :
    ∀ (root : String) (l : DirList) (p : String),
      Effect.fsWrite p ∉ walkTraceDirs pil dp root l
  | root, .nil, p => by intro hmem; exact (List.not_mem_nil _ hmem)
  | root, .cons d rest, p => by
    rw [walkTraceDirs]
    by_cases h : d.name ∈ excluded_dirs
    · rw [if_pos h]
      exact fsWrite_not_mem_walkTraceDirs pil dp root rest p
    · rw [if_neg h]
      intro hmem
      rcases List.mem_append.mp hmem with hm | hm
      · exact fsWrite_not_mem_walkTrace pil dp (posixJoin root d.name) d p hm
      · exact fsWrite_not_mem_walkTraceDirs pil dp root rest p hm
end

/-! ## Concrete instances used by the witnesses -/

def sampleTree : Dir :=
  .mk "proj" [("a.txt", [1]), ("broken.jpg", [255])]
    (.cons (.mk "node_modules" [("x.js", [2])] .nil)
      (.cons (.mk "images" [("photo.png", [137])] .nil) .nil))

/-- A decoder that recognizes the sample photo and rejects everything else. -/
def pilSample : PilOracle := fun c =>
  if c = [137] then .ok (10, 20) else .error "cannot identify image file"

/-- Following the spec's words for the depth computation: the
directory's path "after stripping the root path prefix" (drop the
leading occurrence of the root path, when it is a prefix). -/
def specStripRoot (s dp : String) : String :=
  if dp.data.isPrefixOf s.data then String.mk (s.data.drop dp.data.length) else s

/-- A root named `a` that contains a subdirectory also named `a`: the
root path string reoccurs inside the subdirectory's path. -/
def cxDir : Dir := .mk "a" [] (.cons (.mk "a" [] .nil) .nil)

/-! ## The claims -/

/-- C1: for every directory tree rooted at a valid root path (modelled:
every well-formed tree, sibling names distinct), the printed output has
exactly one line per visited entity in traversal order, every directory
at a relative path that exists and passes through no excluded name is
visited exactly once, every file of such a directory is printed exactly
once, and a path with an excluded component (or a path not in the tree)
is never visited and never printed (its count is zero). -/
theorem C1_exactly_once (pil : PilOracle) (dp : String) (d : Dir)
    (hwf : wfDir d = true) :
    list_files_and_image_dimensions pil dp d = (walkEntities d).map (render pil dp) ∧
    (∀ p : List String,
      List.countP (Entity.isDirAt p) (walkEntities d) =
        if isDirPath d p && noExcl p then 1 else 0) ∧
    (∀ (p : List String) (f : String),
      List.countP (Entity.isFileAt p f) (walkEntities d) =
        if hasFileAt d p f && noExcl p then 1 else 0) :=
  ⟨list_files_eq_render pil dp d, countDir_walk d hwf, countFile_walk d hwf⟩

theorem C1_exactly_once_witness :
    List.countP (Entity.isDirAt ["node_modules"]) (walkEntities sampleTree) = 0 ∧
    List.countP (Entity.isFileAt ["node_modules"] "x.js") (walkEntities sampleTree) = 0 ∧
    List.countP (Entity.isDirAt ["images"]) (walkEntities sampleTree) = 1 ∧
    List.countP (Entity.isFileAt ["images"] "photo.png") (walkEntities sampleTree) = 1 := by
  have h := C1_exactly_once pilSample "/r" sampleTree (by decide)
  refine ⟨?_, ?_, ?_, ?_⟩
  · rw [h.2.1 ["node_modules"]]; decide
  · rw [h.2.2 ["node_modules"] "x.js"]; decide
  · rw [h.2.1 ["images"]]; decide
  · rw [h.2.2 ["images"] "photo.png"]; decide

/-- C2: for every file whose lowercased extension is a recognized image
extension and whose dimension probe fails with message `e`, the line
printed for it is `<indent><filename> (Could not read image dimensions:
<e>)`, that line appears in the output when the file is visited, and the
traversal is not aborted: the output still has exactly one line per
visited entity, every entity after the bad file included. -/
theorem C2_unreadable_image_line (pil : PilOracle) (dp : String) (d : Dir)
    (dirRel : List String) (f e : String) (content : List Nat)
    (himg : pyLower (splitextExt f) ∈ image_extensions)
    (herr : pil content = .error e) :
    list_files_and_image_dimensions pil dp d = (walkEntities d).map (render pil dp) ∧
    render pil dp (.fileE dirRel f content) =
      nspaces (4 * (countSep (pyReplace (absOf dp dirRel) dp) + 1)) ++ f ++
        " (Could not read image dimensions: " ++ e ++ ")" ∧
    (Entity.fileE dirRel f content ∈ walkEntities d →
      nspaces (4 * (countSep (pyReplace (absOf dp dirRel) dp) + 1)) ++ f ++
          " (Could not read image dimensions: " ++ e ++ ")" ∈
        list_files_and_image_dimensions pil dp d) := by
  have hline : render pil dp (.fileE dirRel f content) =
      nspaces (4 * (countSep (pyReplace (absOf dp dirRel) dp) + 1)) ++ f ++
        " (Could not read image dimensions: " ++ e ++ ")" := by
    simp [render, renderFrom, printFileLine, himg, herr]
  refine ⟨list_files_eq_render pil dp d, hline, fun hmem => ?_⟩
  rw [list_files_eq_render pil dp d, ← hline]
  exact List.mem_map_of_mem (render pil dp) hmem

theorem C2_unreadable_image_line_witness :
    "    broken.jpg (Could not read image dimensions: cannot identify image file)" ∈
      list_files_and_image_dimensions pilSample "/r" sampleTree := by
  have h := C2_unreadable_image_line pilSample "/r" sampleTree [] "broken.jpg"
    "cannot identify image file" [255] (by decide) rfl
  have h3 := h.2.2 (by decide)
  have heq : nspaces (4 * (countSep (pyReplace (absOf "/r" []) "/r") + 1)) ++ "broken.jpg" ++
      " (Could not read image dimensions: " ++ "cannot identify image file" ++ ")" =
      "    broken.jpg (Could not read image dimensions: cannot identify image file)" := by
    decide
  rw [heq] at h3
  exact h3

/-- C3: for every file whose lowercased extension is a recognized image
extension and which decodes to pixel dimensions `w × h`, the line
printed for it is `<indent><name> (Image, <w>x<h>)`, that line appears
in the output when the file is visited, and the rest of the output is
unaffected (one line per visited entity). -/
theorem C3_image_dimension_line (pil : PilOracle) (dp : String) (d : Dir)
    (dirRel : List String) (f : String) (content : List Nat) (w h : Nat)
    (himg : pyLower (splitextExt f) ∈ image_extensions)
    (hok : pil content = .ok (w, h)) :
    list_files_and_image_dimensions pil dp d = (walkEntities d).map (render pil dp) ∧
    render pil dp (.fileE dirRel f content) =
      nspaces (4 * (countSep (pyReplace (absOf dp dirRel) dp) + 1)) ++ f ++
        " (Image, " ++ toString w ++ "x" ++ toString h ++ ")" ∧
    (Entity.fileE dirRel f content ∈ walkEntities d →
      nspaces (4 * (countSep (pyReplace (absOf dp dirRel) dp) + 1)) ++ f ++
          " (Image, " ++ toString w ++ "x" ++ toString h ++ ")" ∈
        list_files_and_image_dimensions pil dp d) := by
  have hline : render pil dp (.fileE dirRel f content) =
      nspaces (4 * (countSep (pyReplace (absOf dp dirRel) dp) + 1)) ++ f ++
        " (Image, " ++ toString w ++ "x" ++ toString h ++ ")" := by
    simp [render, renderFrom, printFileLine, himg, hok]
  refine ⟨list_files_eq_render pil dp d, hline, fun hmem => ?_⟩
  rw [list_files_eq_render pil dp d, ← hline]
  exact List.mem_map_of_mem (render pil dp) hmem

theorem C3_image_dimension_line_witness :
    "        photo.png (Image, 10x20)" ∈
      list_files_and_image_dimensions pilSample "/r" sampleTree := by
  have h := C3_image_dimension_line pilSample "/r" sampleTree ["images"] "photo.png"
    [137] 10 20 (by decide) rfl
  have h3 := h.2.2 (by decide)
  have heq : nspaces (4 * (countSep (pyReplace (absOf "/r" ["images"]) "/r") + 1)) ++
      "photo.png" ++ " (Image, " ++ toString 10 ++ "x" ++ toString 20 ++ ")" =
      "        photo.png (Image, 10x20)" := by
    decide
  rw [heq] at h3
  exact h3

/-- C4 counterexample: mount the tree `a ▸ a` at root path `/a`.  The
subdirectory's path is `/a/a`; after stripping the root path prefix the
remainder is `/a`, which contains one separator, so the claim demands
the indentation `4 * 1` spaces before `a/`.  The script instead deletes
every occurrence of `/a` from `/a/a`, leaving the empty string, depth
`0`: the second output line is `a/` with no indentation, not the
claimed `    a/`. -/
theorem C4_depth_counterexample :
    list_files_and_image_dimensions pilSample "/a" cxDir = ["a/", "a/"] ∧
    countSep (specStripRoot "/a/a" "/a") = 1 ∧
    "a/" ≠ nspaces (4 * 1) ++ pyBasename "/a/a" ++ "/" := by
  decide

/-- C4 as amended: the nesting depth of a visited directory is the
count of path-separator characters remaining after deleting every
occurrence of the root path string from the directory's path
(`root.replace(directory_path, '').count(os.sep)`), not merely the
leading prefix; the directory's own basename line is indented with
exactly `4 * depth` spaces and each of its immediate file entry lines
with `4 * (depth + 1)` spaces.  (The two depth computations agree
whenever the root path string does not reoccur in the remainder of a
visited path, which holds for typical root paths.) -/
theorem C4_depth_replace_all (pil : PilOracle) (dp : String) (d : Dir) :
    list_files_and_image_dimensions pil dp d =
      (walkEntities d).map (fun e =>
        match e with
        | .dirE rel =>
            nspaces (4 * countSep (pyReplace (absOf dp rel) dp)) ++
              pyBasename (absOf dp rel) ++ "/"
        | .fileE dr f c =>
            printFileLine pil
              (nspaces (4 * (countSep (pyReplace (absOf dp dr) dp) + 1))) f c) := by
  rw [list_files_eq_render pil dp d]
  apply List.map_congr_left
  intro e _
  cases e <;> rfl

/-- C5: when the hardcoded path does not name an existing directory the
whole output is exactly the single error line; the tree printer is not
invoked (the output does not depend on the decoder or on any tree). -/
theorem C5_invalid_root_message (pil : PilOracle) :
    pyMain pil none = ["Error: The provided path is not a valid directory."] := rfl

/-- C6: a file whose lowercased extension is not a recognized image
extension is printed as `<indent><name>` with no annotation, whatever
its content and whatever the decoder would say; the rest of the output
is one line per visited entity as always. -/
theorem C6_non_image_plain (pil : PilOracle) (dp : String) (d : Dir)
    (dirRel : List String) (f : String) (content : List Nat)
    (hnot : pyLower (splitextExt f) ∉ image_extensions) :
    list_files_and_image_dimensions pil dp d = (walkEntities d).map (render pil dp) ∧
    render pil dp (.fileE dirRel f content) =
      nspaces (4 * (countSep (pyReplace (absOf dp dirRel) dp) + 1)) ++ f ∧
    (∀ (pil' : PilOracle) (content' : List Nat),
      render pil dp (.fileE dirRel f content) =
        render pil' dp (.fileE dirRel f content')) := by
  have hline : ∀ (q : PilOracle) (c : List Nat),
      render q dp (.fileE dirRel f c) =
        nspaces (4 * (countSep (pyReplace (absOf dp dirRel) dp) + 1)) ++ f := by
    intro q c
    simp [render, renderFrom, printFileLine, hnot]
  refine ⟨list_files_eq_render pil dp d, hline pil content, fun pil' content' => ?_⟩
  rw [hline pil content, hline pil' content']

theorem C6_non_image_plain_witness :
    render pilSample "/r" (.fileE [] "a.txt" [1]) = "    a.txt" := by
  have h := C6_non_image_plain pilSample "/r" sampleTree [] "a.txt" [1] (by decide)
  rw [h.2.1]
  decide

/-- C7: the traversal's effect trace contains no filesystem mutation;
its printed lines are exactly the printer's output (writing to standard
output is the only other effect); and its file-handle history is a
sequence of open-then-immediately-close pairs — each probed image file
is opened read-only (`"rb"`) and its handle is released before anything
else happens, in particular before the next file is processed, on the
success path and on the failure path alike. -/
theorem C7_effects (pil : PilOracle) (dp : String) (d : Dir) :
    (∀ p : String, Effect.fsWrite p ∉ walkTrace pil dp dp d) ∧
    printsOf (walkTrace pil dp dp d) = list_files_and_image_dimensions pil dp d ∧
    handlesOf (walkTrace pil dp dp d) = (probedFiles dp d).flatMap openClosePair :=
  ⟨fun p => fsWrite_not_mem_walkTrace pil dp dp d p,
   printsOf_walkTrace pil dp dp d,
   handlesOf_walkTrace pil dp dp d⟩

theorem C7_effects_witness :
    handlesOf (walkTrace pilSample "/r" "/r" sampleTree) =
      [Effect.fsOpen "/r/broken.jpg" "rb", Effect.fsClose "/r/broken.jpg",
       Effect.fsOpen "/r/images/photo.png" "rb", Effect.fsClose "/r/images/photo.png"] ∧
    Effect.fsWrite "/r/a.txt" ∉ walkTrace pilSample "/r" "/r" sampleTree := by
  have h := C7_effects pilSample "/r" sampleTree
  refine ⟨?_, h.1 "/r/a.txt"⟩
  rw [h.2.2]
  decide

/-- C8: the program's output is a deterministic function of the
filesystem state under the root (the tree, including the enumeration
order of directory entries, which is part of the modelled state):
running it twice against the same unchanged state yields identical
output. -/
theorem C8_deterministic_output (pil : PilOracle) (fs1 fs2 : Option Dir)
    (h : fs1 = fs2) : pyMain pil fs1 = pyMain pil fs2 := by
  rw [h]

theorem C8_deterministic_output_witness :
    pyMain pilSample (some sampleTree) = pyMain pilSample (some sampleTree) :=
  C8_deterministic_output pilSample (some sampleTree) (some sampleTree) rfl

/-- C9: the exclusion set is applied only to subdirectory names during
descent, never to the root itself: whatever the root path's own
basename (in particular when it is an excluded name), the root
directory's line `<basename>/` is still printed first and the tree's
non-excluded contents are still rendered, one line per visited
entity. -/
theorem C9_root_name_not_excluded (pil : PilOracle) (dp : String) (d : Dir)
    (hroot : pyBasename dp ∈ excluded_dirs) :
    list_files_and_image_dimensions pil dp d = (walkEntities d).map (render pil dp) ∧
    (list_files_and_image_dimensions pil dp d).head? =
      some (nspaces (4 * countSep (pyReplace dp dp)) ++ pyBasename dp ++ "/") := by
  refine ⟨list_files_eq_render pil dp d, ?_⟩
  cases d with
  | mk n files subdirs =>
    rw [list_files_and_image_dimensions, walkPrint]
    rfl

theorem C9_root_name_not_excluded_witness :
    (list_files_and_image_dimensions pilSample "/x/.git" sampleTree).head? =
      some ".git/" := by
  have h := C9_root_name_not_excluded pilSample "/x/.git" sampleTree (by decide)
  rw [h.2]
  decide

/-- C10: a file named exactly `.<image extension>` (a leading dot, the
extension's letters, no other dot — e.g. `.png`) has an empty
`splitext` extension, so it is not treated as an image: it is printed
as `<indent><name>` with no annotation, and its per-file effect trace
is the single print — the file is never opened for a dimension
probe. -/
theorem C10_leading_dot_image_name (pil : PilOracle) (dp : String) (d : Dir)
    (dirRel : List String) (content : List Nat) (f : String)
    (hf : f ∈ image_extensions) :
    splitextExt f = "" ∧
    list_files_and_image_dimensions pil dp d = (walkEntities d).map (render pil dp) ∧
    render pil dp (.fileE dirRel f content) =
      nspaces (4 * (countSep (pyReplace (absOf dp dirRel) dp) + 1)) ++ f ∧
    (∀ ip si : String, processFileTrace pil ip si f content = [.printLine (si ++ f)]) := by
  have hext : splitextExt f = "" := by
    fin_cases hf <;> decide
  have hnot : pyLower (splitextExt f) ∉ image_extensions := by
    rw [hext]
    decide
  refine ⟨hext, list_files_eq_render pil dp d, ?_, fun ip si => ?_⟩
  · simp [render, renderFrom, printFileLine, hnot]
  · simp [processFileTrace, hnot]

theorem C10_leading_dot_image_name_witness :
    render pilSample "/r" (.fileE [] ".png" [255]) = "    .png" ∧
    processFileTrace pilSample "/r/.png" "    " ".png" [255] =
      [.printLine "    .png"] := by
  have h := C10_leading_dot_image_name pilSample "/r" sampleTree [] [255] ".png"
    (by decide)
  refine ⟨?_, ?_⟩
  · rw [h.2.2.1]
    decide
  · rw [h.2.2.2 "/r/.png" "    "]
    decide
